import Mathlib

/-!
Verification development for the RGSX-to-webrcade feed generator
(scripts/build_feed.py).  The Python transformation pipeline is shallowly
embedded: JSON dictionaries become structures of optional string fields,
Python truthiness on optional strings is modelled by `truthy`, and the
impure collaborators (environment lookup, file loading) become explicit
function parameters.  All definitions are translated from the source; the
definitions whose names end in `_claim` or `_spec` instead follow the
wording of the specification and are compared with the source-derived
ones.
-/

/-- Python truthiness of an optional string: `None` and the empty string
are falsy, every other string is truthy. -/
def truthy : Option String → Bool
  | none => false
  | some s => s != ""

/-- Python `a or b` on optional strings: returns `a` when `a` is truthy,
otherwise `b`. -/
def pyOr (a b : Option String) : Option String :=
  if truthy a then a else b

/-- Python `a or d` where `d` is a plain (truthy) string default. -/
def pyOrStr (a : Option String) (d : String) : String :=
  if truthy a then a.getD d else d

/-- Python truthiness of an optional list: `None` and `[]` are falsy. -/
def truthyList : Option (List String) → Bool
  | none => false
  | some l => !l.isEmpty

/-- ASCII whitespace stripped by Python `str.strip()` (the model covers the
ASCII whitespace characters; the claims never exercise exotic Unicode
whitespace). -/
def isPyWs (c : Char) : Bool :=
  c = ' ' || c = '\t' || c = '\n' || c = '\r' || c = '\x0b' || c = '\x0c'

/-- Python `str.strip()` on a character list: drop whitespace from both
ends. -/
def stripChars (cs : List Char) : List Char :=
  ((cs.dropWhile isPyWs).reverse.dropWhile isPyWs).reverse

/-- Python `str.strip()`. -/
def pyStripStr (s : String) : String :=
  String.mk (stripChars s.data)

/-- Python `str.lstrip(slash)`: drop all leading slash characters. -/
def lstripSlashes (s : String) : String :=
  String.mk (s.data.dropWhile (fun c => c = '/'))

/-- Python `str.rstrip(slash)`: drop all trailing slash characters. -/
def rstripSlashes (s : String) : String :=
  String.mk ((s.data.reverse.dropWhile (fun c => c = '/')).reverse)

/-- Python `str.lower()` (ASCII model, matching the ASCII system names and
mapping keys the program handles). -/
def asciiLower (s : String) : String :=
  String.mk (s.data.map Char.toLower)

/-- Hexadecimal digit value, as used by percent-decoding. -/
def hexVal (c : Char) : Option Nat :=
  if '0' ≤ c ∧ c ≤ '9' then some (c.toNat - '0'.toNat)
  else if 'a' ≤ c ∧ c ≤ 'f' then some (c.toNat - 'a'.toNat + 10)
  else if 'A' ≤ c ∧ c ≤ 'F' then some (c.toNat - 'A'.toNat + 10)
  else none

/-- Python `urllib.parse.unquote` on a character list, modelled for single-byte
percent escapes (a `%` followed by two hex digits decodes to that code
point; an invalid escape is kept literally, exactly as in Python). -/
def unquoteChars : List Char → List Char
  | [] => []
  | '%' :: a :: b :: rest =>
    match hexVal a, hexVal b with
    | some x, some y => Char.ofNat (16 * x + y) :: unquoteChars rest
    | _, _ => '%' :: unquoteChars (a :: b :: rest)
  | c :: rest => c :: unquoteChars rest

/-- Python `url.split(slash)[-1]`: the text after the last slash (the whole
string when it has no slash). -/
def lastSegmentChars (cs : List Char) : List Char :=
  (cs.reverse.takeWhile (fun c => c ≠ '/')).reverse

/-- Index of the last occurrence of `c`, as in Python `str.rfind`. -/
def lastIdxOf (c : Char) (cs : List Char) : Option Nat :=
  match cs.reverse.findIdx? (fun x => x = c) with
  | some i => some (cs.length - 1 - i)
  | none => none

/-- Root part of CPython `posixpath.splitext`: split at the last dot that
comes after the last slash, provided at least one non-dot character stands
between them (leading dots of the base name never start an extension). -/
def splitextRoot (cs : List Char) : List Char :=
  match lastIdxOf '.' cs with
  | none => cs
  | some d =>
    let start := match lastIdxOf '/' cs with | some s => s + 1 | none => 0
    if (match lastIdxOf '/' cs with | some s => decide (s < d) | none => true) then
      if ((cs.drop start).take (d - start)).any (fun x => x ≠ '.') then cs.take d else cs
    else cs

/-- Python `str.split(comma)`: splitting the empty string yields one empty
segment, exactly as in Python. -/
def pySplitComma : List Char → List (List Char)
  | [] => [[]]
  | c :: rest =>
    if c = ',' then [] :: pySplitComma rest
    else
      match pySplitComma rest with
      | s :: ss => (c :: s) :: ss
      | [] => [[c]]

/-- Python `dict.get` on the mapping table (Python dictionaries have unique keys,
so the first matching key of the association list is the binding). -/
def mapGet (m : List (String × String)) (k : String) : Option String :=
  (m.find? (fun kv => kv.1 = k)).map (fun kv => kv.2)

/-- The extension alternatives of `ROM_EXT_RE`, in source order (the
source regex lists `iso` twice; the duplicate is kept). -/
def romExtList : List String :=
  ["zip", "7z", "chd", "rar", "iso", "bin", "cue", "gba", "gbc", "gb",
   "nes", "sfc", "smc", "smd", "md", "pce", "iso", "img"]

/-- The alternative of `ROM_EXT_RE` that matches at the end of the string
(case-insensitively), when one does. -/
def romExtMatch (cs : List Char) : Option String :=
  romExtList.find? (fun ext => decide (('.' :: ext.data) <:+ (cs.map Char.toLower)))

/-- The source `ROM_EXT_RE.sub` restricted to the end of the string: remove the
single dot-plus-extension suffix when the regex matches there. -/
def stripRomExtCore (cs : List Char) : List Char :=
  match romExtMatch cs with
  | some ext => cs.take (cs.length - (ext.length + 1))
  | none => cs

/-- The source `ROM_EXT_RE.sub(empty, s)`: the pattern is anchored with a dollar,
which in Python also matches just before a single trailing newline. -/
def rom_ext_sub (s : String) : String :=
  match s.data.getLast? with
  | some c =>
    if c = '\n' then String.mk (stripRomExtCore s.data.dropLast ++ ['\n'])
    else String.mk (stripRomExtCore s.data)
  | none => String.mk (stripRomExtCore s.data)

/-- One record of `systems_list.json` (only the fields the program reads). -/
structure SystemR where
  name : Option String := none
  platform_name : Option String := none
  folder : Option String := none
  deriving DecidableEq

/-- A structured game record: the optional keys the program reads from a
game dictionary. -/
structure GameRecord where
  title : Option String := none
  name : Option String := none
  url : Option String := none
  rom : Option String := none
  href : Option String := none
  path : Option String := none
  rom_path : Option String := none
  size : Option String := none
  img : Option String := none
  thumbnail : Option String := none
  image : Option String := none
  background : Option String := none
  banner : Option String := none
  screenshot : Option String := none
  deriving DecidableEq

/-- A raw game entry: dictionary, positional list, bare string, or any
other JSON shape. -/
inductive RawEntry where
  | dict (g : GameRecord)
  | list (l : List String)
  | str (s : String)
  | other
  deriving DecidableEq

/-- One emitted feed item; `rom` models the required `props.rom` key and
the two optional artwork fields model presence of their keys. -/
structure Item where
  title : String
  type : String
  rom : String
  thumbnail : Option String := none
  background : Option String := none
  deriving DecidableEq

/-- One feed category. -/
structure Category where
  title : String
  items : List Item
  deriving DecidableEq

/-- The produced feed; the two optional fields model the optional
`props.neogeo_bios` and `props.psx_bios` keys (`none` means the key is
absent). -/
structure Feed where
  title : String
  longTitle : String
  description : String
  neogeo_bios : Option String := none
  psx_bios : Option (List String) := none
  categories : List Category
  deriving DecidableEq

/-- The fields of `Config` consumed by the pure pipeline (the path fields
only feed the file-loading collaborators, which the embedding abstracts as
function parameters). `category_pref` embeds `category_prefix` and
`rom_pref_url` embeds `rom_prefix_url` of the source. -/
structure ConfigM where
  feed_title : String
  feed_description : String
  category_pref : String
  rom_pref_url : Option String := none
  neogeo_bios_url : Option String := none
  psx_bios_urls : Option (List String) := none
  deriving DecidableEq

/-- Python `os.environ.get(k, d)`: the default applies only when the variable is
absent. -/
def envGetD (env : String → Option String) (k d : String) : String :=
  (env k).getD d

/-- The source `build_config`, over an explicit environment; `now` stands for the
timestamp interpolated into the default description. -/
def build_config (env : String → Option String) (now : String) : ConfigM :=
  let feed_title := envGetD env "FEED_TITLE" "RGSX Library"
  let feed_description :=
    envGetD env "FEED_DESCRIPTION" ("Generated from RGSX caches on " ++ now ++ "Z")
  let category_pref := envGetD env "FEED_CATEGORY_PREFIX" ""
  let rom_pref_url := env "ROM_PREFIX_URL"
  let neogeo_bios_url :=
    envGetD env "NEOGEO_BIOS_URL"
      "https://archive.org/download/neogeoaesmvscomplete/BIOS/neogeo.zip"
  let psx_bios_env :=
    envGetD env "PSX_BIOS_URLS"
      "https://psx.arthus.net/roms/bios/scph5500.bin,https://psx.arthus.net/roms/bios/scph5501.bin,https://psx.arthus.net/roms/bios/scph5502.bin"
  let psx_bios_urls :=
    if psx_bios_env ≠ "" then
      some ((((pySplitComma psx_bios_env.data).map
        (fun cs => pyStripStr (String.mk cs)))).filter (fun u => u ≠ ""))
    else none
  { feed_title := feed_title
    feed_description := feed_description
    category_pref := category_pref
    rom_pref_url :=
      match rom_pref_url with
      | some s => if s ≠ "" then some (rstripSlashes s) else none
      | none => none
    neogeo_bios_url := some neogeo_bios_url
    psx_bios_urls := psx_bios_urls }

/-- Case-insensitive scan of the mapping items, returning the value of the
first key whose lower-casing equals the lowered name (the value is
returned even when it is empty, exactly as in the source). -/
def ci_scan (m : List (String × String)) (n : String) : Option String :=
  (m.find? (fun kv => asciiLower kv.1 = asciiLower n)).map (fun kv => kv.2)

/-- Embedding of `map_system_name` from the source: exact name lookup, then folder and
lower-cased folder lookup, then the case-insensitive scan; a falsy name
yields `None`. -/
def map_system_name (system : SystemR) (mapping : List (String × String)) : Option String :=
  let name := pyOr system.name system.platform_name
  if truthy name then
    let n := name.getD ""
    let mapped := mapGet mapping n
    if truthy mapped then mapped
    else
      let folderResult :=
        if truthy system.folder then
          let f := system.folder.getD ""
          let mapped2 := pyOr (mapGet mapping f) (mapGet mapping (asciiLower f))
          if truthy mapped2 then mapped2 else none
        else none
      match folderResult with
      | some v => some v
      | none => ci_scan mapping n
  else none

/-- Embedding of `resolve_rom_url` from the source. -/
def resolve_rom_url (game : GameRecord) (rom_pref : Option String) : Option String :=
  let url := pyOr (pyOr game.url game.rom) game.href
  if truthy url then url
  else if truthy rom_pref then
    let candidate := pyOr game.path game.rom_path
    if truthy candidate then
      some ((rom_pref.getD "") ++ "/" ++ lstripSlashes (candidate.getD ""))
    else none
  else none

/-- Embedding of `extract_thumbnail` from the source. -/
def extract_thumbnail (game : GameRecord) : Option String :=
  pyOr game.img (pyOr game.thumbnail game.image)

/-- Embedding of `extract_background` from the source. -/
def extract_background (game : GameRecord) : Option String :=
  pyOr game.background (pyOr game.banner game.screenshot)

/-- Embedding of `normalize_game_entry` from the source: dictionaries pass through,
lists map positions 0, 1, 2 to title, url, size, bare strings become a
title-only record, anything else the empty record. -/
def normalize_game_entry : RawEntry → GameRecord
  | .dict g => g
  | .list l =>
    match l with
    | [] => {}
    | [a] => { title := some a }
    | [a, b] => { title := some a, url := some b }
    | a :: b :: c :: _ => { title := some a, url := some b, size := some c }
  | .str s => { title := some s }
  | .other => {}

/-- Embedding of `derive_title_from_url` from the source: last path segment, percent
decoded, extension stripped, with the non-stripped segment as fallback
when the root is empty. -/
def derive_title_from_url (url : String) : Option String :=
  if url = "" then none
  else
    let segment := String.mk (unquoteChars (lastSegmentChars url.data))
    let root := String.mk (splitextRoot segment.data)
    some (if root = "" then segment else root)

/-- Embedding of `clean_title` from the source. -/
def clean_title (raw_title : Option String) (rom_url : Option String) : Option String :=
  let candidate := pyStripStr (raw_title.getD "")
  let candidate :=
    if candidate ≠ "" then pyStripStr (rom_ext_sub candidate) else candidate
  let candidate :=
    if candidate = "" ∧ truthy rom_url then
      pyStripStr (rom_ext_sub ((derive_title_from_url (rom_url.getD "")).getD ""))
    else candidate
  if candidate = "" then none else some candidate

/-- Embedding of `build_items` from the source: one pass over the raw entries, skipping
an entry whose cleaned title or resolved locator is falsy. -/
def build_items (games : List RawEntry) (system_type : String) (rom_pref : Option String) :
    List Item :=
  match games with
  | [] => []
  | raw :: rest =>
    let game := normalize_game_entry raw
    let rom_url := resolve_rom_url game rom_pref
    let title := clean_title (pyOr game.title game.name) rom_url
    if !truthy title || !truthy rom_url then build_items rest system_type rom_pref
    else
      { title := title.getD ""
        type := system_type
        rom := rom_url.getD ""
        thumbnail := (let t := extract_thumbnail game; if truthy t then t else none)
        background := (let b := extract_background game; if truthy b then b else none) }
        :: build_items rest system_type rom_pref

/-- The category-accumulating loop of `generate_feed`: `gamesFor` models
`load_json(games_dir / (system_name ++ dot-json))`, returning `none` for a
missing or unparseable file. -/
def build_categories (cfg : ConfigM) (systems : List SystemR)
    (mapping : List (String × String)) (gamesFor : String → Option (List RawEntry)) :
    List Category :=
  match systems with
  | [] => []
  | system :: rest =>
    let tail := build_categories cfg rest mapping gamesFor
    let system_type := map_system_name system mapping
    if truthy system_type then
      let system_name := pyOrStr (pyOr system.platform_name system.name) "Unknown"
      match gamesFor system_name with
      | none => tail
      | some games =>
        let items := build_items games (system_type.getD "") cfg.rom_pref_url
        if items.isEmpty then tail
        else { title := cfg.category_pref ++ system_name, items := items } :: tail
    else tail

/-- Embedding of `generate_feed` from the source, with the two `load_json` results as
explicit optional inputs; `Except.error 1` models the non-zero return with
nothing written or printed, `Except.ok` the feed handed to the output
step. -/
def generate_feed (cfg : ConfigM) (systemsLoaded : Option (List SystemR))
    (mappingLoaded : Option (List (String × String)))
    (gamesFor : String → Option (List RawEntry)) : Except Nat Feed :=
  match systemsLoaded with
  | none => .error 1
  | some systems =>
    match mappingLoaded with
    | none => .error 1
    | some mapping =>
      let cats := build_categories cfg systems mapping gamesFor
      if cats.isEmpty then .error 1
      else
        .ok { title := cfg.feed_title
              longTitle := cfg.feed_title
              description := cfg.feed_description
              neogeo_bios := if truthy cfg.neogeo_bios_url then cfg.neogeo_bios_url else none
              psx_bios := if truthyList cfg.psx_bios_urls then cfg.psx_bios_urls else none
              categories := cats }

/-! ## Specification-side definitions (for refinement claims) -/

/-- A lookup result counts as a hit when it is truthy (present and
non-empty). -/
def hitOf (o : Option String) : Option String :=
  if truthy o then o else none

/-- First present-and-non-empty value of an ordered candidate list, as the
specification words the field precedence. -/
def first_nonempty (l : List (Option String)) : Option String :=
  l.findSome? (fun o => if truthy o then o else none)

/-- First merely-present value of three candidate fields, following the
claim wording for artwork extraction literally. -/
def first_present (a b c : Option String) : Option String :=
  match a with
  | some x => some x
  | none => match b with | some y => some y | none => c

/-- The Mapping Resolver precedence as the specification words it: an
ordered rule list, first hit winning — exact name, then (for a record
with a folder) exact folder and lower-cased folder, then the
case-insensitive scan. -/
def map_system_name_claim (system : SystemR) (mapping : List (String × String)) :
    Option String :=
  let name := pyOr system.name system.platform_name
  if truthy name then
    let n := name.getD ""
    ([hitOf (mapGet mapping n)] ++
      (if truthy system.folder then
        [hitOf (mapGet mapping (system.folder.getD "")),
         hitOf (mapGet mapping (asciiLower (system.folder.getD "")))]
       else []) ++
      [ci_scan mapping n]).findSome? id
  else none

/-- The locator resolution as the specification words it: first present
and non-empty of url, rom, href; otherwise the configured prefix joined
with the first non-empty path field, with leading slashes stripped;
otherwise absent. -/
def resolve_rom_url_claim (game : GameRecord) (rom_pref : Option String) : Option String :=
  match first_nonempty [game.url, game.rom, game.href] with
  | some u => some u
  | none =>
    match rom_pref with
    | some p =>
      if p ≠ "" then
        (first_nonempty [game.path, game.rom_path]).map
          (fun c => p ++ "/" ++ lstripSlashes c)
      else none
    | none => none

/-- Whether one raw entry survives the title/locator check of
`build_items`. -/
def item_survives (raw : RawEntry) (rom_pref : Option String) : Bool :=
  let game := normalize_game_entry raw
  let rom_url := resolve_rom_url game rom_pref
  let title := clean_title (pyOr game.title game.name) rom_url
  truthy title && truthy rom_url

/-- The item built from one surviving raw entry. -/
def item_of (raw : RawEntry) (system_type : String) (rom_pref : Option String) : Item :=
  let game := normalize_game_entry raw
  let rom_url := resolve_rom_url game rom_pref
  let title := clean_title (pyOr game.title game.name) rom_url
  { title := title.getD ""
    type := system_type
    rom := rom_url.getD ""
    thumbnail := (let t := extract_thumbnail game; if truthy t then t else none)
    background := (let b := extract_background game; if truthy b then b else none) }

/-- The rules of `map_system_name` that follow the exact-name lookup
(folder lookups, then the case-insensitive scan). -/
def map_system_name_later (system : SystemR) (mapping : List (String × String)) :
    Option String :=
  let name := pyOr system.name system.platform_name
  let n := name.getD ""
  let folderResult :=
    if truthy system.folder then
      let f := system.folder.getD ""
      let mapped2 := pyOr (mapGet mapping f) (mapGet mapping (asciiLower f))
      if truthy mapped2 then mapped2 else none
    else none
  match folderResult with
  | some v => some v
  | none => ci_scan mapping n

/-- The title `clean_title` produces when it falls back to the locator. -/
def cleanFromUrl (u : Option String) : Option String :=
  if truthy u then
    let c := pyStripStr (rom_ext_sub ((derive_title_from_url (u.getD "")).getD ""))
    if c = "" then none else some c
  else none

/-! ## Concrete instances used by witnesses and counterexamples -/

def gamesW : List RawEntry :=
  [RawEntry.list ["Mega Example (USA).zip",
    "https://example.com/roms/Mega%20Example%20%28USA%29.zip", "512K"],
   RawEntry.other]

def itemW : Item :=
  { title := "Mega Example (USA)", type := "nes",
    rom := "https://example.com/roms/Mega%20Example%20%28USA%29.zip" }

def envNone : String → Option String := fun _ => none

def envPsx : String → Option String :=
  fun k => if k = "PSX_BIOS_URLS" then
    some "https://a/1.bin,https://a/2.bin,https://a/3.bin" else none

def sysListW : List SystemR := [{ name := some "NES" }]

def mapListW : List (String × String) := [("NES", "nes")]

def gfW : String → Option (List RawEntry) :=
  fun _ => some [RawEntry.list ["Mario.zip", "https://x/Mario.zip"]]

def itemMario : Item := { title := "Mario", type := "nes", rom := "https://x/Mario.zip" }

def catMario : Category := { title := "NES", items := [itemMario] }

def feedD : Feed :=
  { title := "RGSX Library"
    longTitle := "RGSX Library"
    description := "Generated from RGSX caches on TZ"
    neogeo_bios := some "https://archive.org/download/neogeoaesmvscomplete/BIOS/neogeo.zip"
    psx_bios := some ["https://psx.arthus.net/roms/bios/scph5500.bin",
      "https://psx.arthus.net/roms/bios/scph5501.bin",
      "https://psx.arthus.net/roms/bios/scph5502.bin"]
    categories := [catMario] }

def sysW9 : SystemR := { name := some "A" }

def mapW9 : List (String × String) := [("A", "")]

def sysW9c : SystemR := { name := some "N", folder := some "F" }

def mapW9c : List (String × String) := [("F", "")]

def gX : GameRecord :=
  { title := some "Mario", url := some "https://x/m.zip",
    img := some "", thumbnail := some "x" }

def itemX : Item :=
  { title := "Mario", type := "nes", rom := "https://x/m.zip", thumbnail := some "x" }

/-! ## Helper lemmas -/

theorem truthy_some {o : Option String} (h : truthy o = true) : ∃ s, o = some s ∧ s ≠ "" := by
  cases o with
  | none => simp [truthy] at h
  | some s => exact ⟨s, rfl, by simpa [truthy] using h⟩

theorem truthy_getD_ne {o : Option String} (h : truthy o = true) : o.getD "" ≠ "" := by
  rcases truthy_some h with ⟨s, rfl, hs⟩
  simpa using hs

theorem first_nonempty_nil : first_nonempty [] = none := rfl

theorem first_nonempty_cons (o : Option String) (l : List (Option String)) :
    first_nonempty (o :: l) = if truthy o then o else first_nonempty l := by
  rcases o with _ | s
  · simp [first_nonempty, List.findSome?_cons, truthy]
  · by_cases h : s = ""
    · subst h; simp [first_nonempty, List.findSome?_cons, truthy]
    · simp [first_nonempty, List.findSome?_cons, truthy, h]

theorem first_nonempty3 (a b c : Option String) :
    first_nonempty [a, b, c]
      = (if truthy (pyOr (pyOr a b) c) then pyOr (pyOr a b) c else none) := by
  by_cases ta : truthy a = true <;> by_cases tb : truthy b = true <;>
    by_cases tc : truthy c = true <;>
      simp [first_nonempty_cons, first_nonempty_nil, pyOr, ta, tb, tc]

theorem first_nonempty2 (a b : Option String) :
    first_nonempty [a, b] = (if truthy (pyOr a b) then pyOr a b else none) := by
  by_cases ta : truthy a = true <;> by_cases tb : truthy b = true <;>
    simp [first_nonempty_cons, first_nonempty_nil, pyOr, ta, tb]

theorem generate_feed_ok_elim {cfg : ConfigM} {s : List SystemR}
    {m : List (String × String)} {gf : String → Option (List RawEntry)} {f : Feed}
    (h : generate_feed cfg (some s) (some m) gf = Except.ok f) :
    f.categories = build_categories cfg s m gf ∧ build_categories cfg s m gf ≠ [] ∧
      f.psx_bios = (if truthyList cfg.psx_bios_urls then cfg.psx_bios_urls else none) := by
  unfold generate_feed at h
  by_cases hc : (build_categories cfg s m gf).isEmpty = true
  · simp [hc] at h
  · simp only [hc, if_neg, Bool.false_eq_true, not_false_eq_true, if_false] at h
    injection h with h
    subst h
    refine ⟨rfl, ?_, rfl⟩
    intro hnil
    exact hc (by simp [hnil])

/-! ## Claim theorems: C6, C7, C8 -/

/-- C6: if processing all systems produces zero categories, the run fails
with a non-zero result and no feed is emitted; a feed is produced only
when at least one category was built. -/
theorem c6_zero_categories_fatal :
    ∀ (cfg : ConfigM) (systems : List SystemR) (mapping : List (String × String))
      (gamesFor : String → Option (List RawEntry)),
      (build_categories cfg systems mapping gamesFor = [] →
        generate_feed cfg (some systems) (some mapping) gamesFor = Except.error 1)
      ∧ (∀ f, generate_feed cfg (some systems) (some mapping) gamesFor = Except.ok f →
          f.categories ≠ []) := by
  intro cfg systems mapping gamesFor
  constructor
  · intro h
    simp [generate_feed, h]
  · intro f hf
    rcases generate_feed_ok_elim hf with ⟨hcat, hne, -⟩
    rw [hcat]
    exact hne

/-- C7: the resolved locator is the first present-and-non-empty of url,
rom, href; otherwise, with a truthy prefix and a non-empty path field, the
prefix joined to the path with leading slashes stripped; otherwise
absent. -/
theorem c7_resolve_rom_url_chain :
    ∀ (game : GameRecord) (rom_pref : Option String),
      resolve_rom_url game rom_pref = resolve_rom_url_claim game rom_pref := by
  intro g rp
  unfold resolve_rom_url resolve_rom_url_claim
  rw [first_nonempty3, first_nonempty2]
  by_cases hu : truthy (pyOr (pyOr g.url g.rom) g.href) = true
  · rcases truthy_some hu with ⟨v, hv, hne⟩
    have hv' : truthy (some v) = true := by simpa [truthy] using hne
    simp [hv, hv']
  · simp only [hu, Bool.false_eq_true, if_false]
    rcases rp with _ | p
    · simp [truthy]
    · by_cases hp : p = ""
      · subst hp; simp [truthy]
      · have hpt : truthy (some p) = true := by simpa [truthy] using hp
        simp only [hpt, if_true, hp, if_neg, ne_eq, not_false_eq_true, if_true]
        by_cases hc : truthy (pyOr g.path g.rom_path) = true
        · rcases truthy_some hc with ⟨c, hcv, -⟩
          simp [hc, hcv]
        · simp [hc]

/-- C8: normalization is total, maps the three shapes as specified,
ignores trailing list positions, and is idempotent when fed back its own
structured output. -/
theorem c8_normalize_total :
    (∀ e, normalize_game_entry (RawEntry.dict (normalize_game_entry e))
        = normalize_game_entry e)
    ∧ (∀ l : List String,
        (normalize_game_entry (RawEntry.list l)).title = l.head?
        ∧ (normalize_game_entry (RawEntry.list l)).url = l[1]?
        ∧ (normalize_game_entry (RawEntry.list l)).size = l[2]?)
    ∧ (∀ (a b c : String) (rest : List String),
        normalize_game_entry (RawEntry.list (a :: b :: c :: rest))
          = normalize_game_entry (RawEntry.list [a, b, c]))
    ∧ (∀ s, normalize_game_entry (RawEntry.str s) = { title := some s })
    ∧ normalize_game_entry RawEntry.other = {} := by
  refine ⟨fun e => rfl, fun l => ?_, fun a b c rest => rfl, fun s => rfl, rfl⟩
  match l with
  | [] => exact ⟨rfl, by simp [normalize_game_entry], by simp [normalize_game_entry]⟩
  | [a] => exact ⟨rfl, by simp [normalize_game_entry], by simp [normalize_game_entry]⟩
  | [a, b] => exact ⟨rfl, by simp [normalize_game_entry], by simp [normalize_game_entry]⟩
  | a :: b :: c :: t =>
    exact ⟨rfl, by simp [normalize_game_entry], by simp [normalize_game_entry]⟩

theorem build_items_cons (raw : RawEntry) (rest : List RawEntry) (st : String)
    (rp : Option String) :
    build_items (raw :: rest) st rp =
      (if item_survives raw rp then [item_of raw st rp] else []) ++ build_items rest st rp := by
  cases ha : truthy (clean_title
      (pyOr (normalize_game_entry raw).title (normalize_game_entry raw).name)
      (resolve_rom_url (normalize_game_entry raw) rp)) <;>
    cases hb : truthy (resolve_rom_url (normalize_game_entry raw) rp) <;>
      simp [build_items, item_survives, item_of, ha, hb]

theorem build_items_mem {games : List RawEntry} {st : String} {rp : Option String}
    {it : Item} (h : it ∈ build_items games st rp) :
    ∃ raw ∈ games, item_survives raw rp = true ∧ it = item_of raw st rp := by
  induction games with
  | nil => cases h
  | cons raw rest ih =>
    rw [build_items_cons] at h
    rcases List.mem_append.mp h with h1 | h2
    · by_cases hs : item_survives raw rp = true
      · rw [if_pos hs] at h1
        rcases List.mem_singleton.mp h1 with rfl
        exact ⟨raw, List.mem_cons_self _ _, hs, rfl⟩
      · rw [if_neg hs] at h1
        cases h1
    · rcases ih h2 with ⟨g, hg, hs, hit⟩
      exact ⟨g, List.mem_cons_of_mem _ hg, hs, hit⟩

/-- C1: `build_items` emits, in order, exactly one item per surviving
entry (one whose cleaned title and resolved locator are both truthy), and
every emitted item has a non-empty title and a non-empty `props.rom`. -/
theorem c1_build_items_emits_survivors :
    ∀ (games : List RawEntry) (st : String) (rp : Option String),
      build_items games st rp
          = (games.filter (fun g => item_survives g rp)).map (fun g => item_of g st rp)
      ∧ ∀ it ∈ build_items games st rp, it.title ≠ "" ∧ it.rom ≠ "" := by
  intro games st rp
  constructor
  · induction games with
    | nil => rfl
    | cons raw rest ih =>
      rw [build_items_cons, ih]
      by_cases h : item_survives raw rp = true <;> simp [List.filter_cons, h]
  · intro it hit
    rcases build_items_mem hit with ⟨g, -, hs, rfl⟩
    have hand := Bool.and_eq_true_iff.mp (by simpa [item_survives] using hs)
    constructor
    · simpa [item_of] using truthy_getD_ne hand.1
    · simpa [item_of] using truthy_getD_ne hand.2

/-- C1 witness: the sample entry of the unit test yields an item with
non-empty title and rom. -/
theorem c1_witness : itemW.title ≠ "" ∧ itemW.rom ≠ "" :=
  (c1_build_items_emits_survivors gamesW "nes" none).2 itemW (by decide)

theorem findSome?_id_cons (o : Option String) (l : List (Option String)) :
    List.findSome? id (o :: l) = o.or (List.findSome? id l) := by
  cases o <;> simp [List.findSome?_cons]

theorem hitOf_or (o rest : Option String) :
    (hitOf o).or rest = if truthy o then o else rest := by
  by_cases h : truthy o = true
  · rcases truthy_some h with ⟨v, rfl, -⟩
    simp [hitOf, h]
  · simp [hitOf, h]

/-- C2: the mapping resolver equals the rule chain of the specification —
exact name match, then (for a record with a truthy folder) exact and
lower-cased folder match, then the case-insensitive scan, first hit
winning; a record without a usable name resolves to nothing, and the
function is total. -/
theorem c2_map_system_name_precedence :
    ∀ (system : SystemR) (mapping : List (String × String)),
      map_system_name system mapping = map_system_name_claim system mapping := by
  intro sys m
  unfold map_system_name map_system_name_claim
  by_cases hn : truthy (pyOr sys.name sys.platform_name) = true
  · simp only [hn, if_true]
    by_cases hf : truthy sys.folder = true
    · simp only [hf, if_true, Bool.false_eq_true, if_false, List.singleton_append,
        List.cons_append, List.nil_append, findSome?_id_cons, List.findSome?_nil,
        Option.or_none, hitOf_or]
      by_cases h1 : truthy (mapGet m ((pyOr sys.name sys.platform_name).getD "")) = true
      case pos => simp [h1]
      case neg =>
        simp only [h1, Bool.false_eq_true, if_false]
        by_cases h2 : truthy (mapGet m (sys.folder.getD "")) = true
        · rcases truthy_some h2 with ⟨v, hv, hne⟩
          have hsv : truthy (some v) = true := by simp [truthy, hne]
          rw [hv]
          simp [pyOr, hsv]
        · have h2f : truthy (mapGet m (sys.folder.getD "")) = false :=
            (Bool.not_eq_true _).mp h2
          by_cases h3 : truthy (mapGet m (asciiLower (sys.folder.getD ""))) = true
          · rcases truthy_some h3 with ⟨v, hv, hne⟩
            have hsv : truthy (some v) = true := by simp [truthy, hne]
            rw [hv]
            simp [pyOr, h2f, hsv]
          · have h3f : truthy (mapGet m (asciiLower (sys.folder.getD ""))) = false :=
              (Bool.not_eq_true _).mp h3
            have hp : truthy (pyOr (mapGet m (sys.folder.getD ""))
                (mapGet m (asciiLower (sys.folder.getD "")))) = false := by
              simp [pyOr, h2f, h3f]
            simp [hp, h2f, h3f]
    · simp only [hf, Bool.false_eq_true, if_false, List.nil_append,
        List.singleton_append, findSome?_id_cons, List.findSome?_nil,
        Option.or_none, hitOf_or]
  · simp [hn]

/-! ## Lemmas about the extension stripper -/

theorem romExt_no_dot : ∀ e ∈ romExtList, '.' ∉ e.data := by decide

theorem romExt_ne_nil : ∀ e ∈ romExtList, e.data ≠ [] := by decide

theorem romExt_last_ne_nl : ∀ e ∈ romExtList, e.data.getLast? ≠ some '\n' := by decide

theorem romExt_suffix_aux {e1 e2 : String} (h2 : e2 ∈ romExtList)
    (h : ('.' :: e1.data) <:+ ('.' :: e2.data)) : e1.data.length = e2.data.length := by
  rcases h with ⟨t, ht⟩
  cases t with
  | nil =>
    simp only [List.nil_append, List.cons.injEq] at ht
    rw [ht.2]
  | cons x t2 =>
    rw [List.cons_append] at ht
    injection ht with hx htail
    exfalso
    apply romExt_no_dot e2 h2
    rw [← htail]
    exact List.mem_append_right _ (List.mem_cons_self _ _)

theorem romExt_suffix_length {e1 e2 : String} (h1 : e1 ∈ romExtList) (h2 : e2 ∈ romExtList)
    {L : List Char} (s1 : ('.' :: e1.data) <:+ L) (s2 : ('.' :: e2.data) <:+ L) :
    e1.data.length = e2.data.length := by
  rcases List.suffix_or_suffix_of_suffix s1 s2 with h | h
  · exact romExt_suffix_aux h2 h
  · exact (romExt_suffix_aux h1 h).symm

theorem stripRomExtCore_strips (base pre : List Char) (ext : String)
    (hm : ext ∈ romExtList) (hlow : pre.map Char.toLower = ext.data) :
    stripRomExtCore (base ++ '.' :: pre) = base := by
  have hdot : Char.toLower '.' = '.' := by decide
  have hmap : (base ++ '.' :: pre).map Char.toLower
      = (base.map Char.toLower) ++ '.' :: ext.data := by
    rw [List.map_append, List.map_cons, hdot, hlow]
  have hsuf : ('.' :: ext.data) <:+ ((base ++ '.' :: pre).map Char.toLower) := by
    rw [hmap]
    exact ⟨base.map Char.toLower, rfl⟩
  have hplen : pre.length = ext.data.length := by
    rw [← hlow, List.length_map]
  have hfind0 : romExtMatch (base ++ '.' :: pre)
      = romExtList.find?
          (fun x => decide (('.' :: x.data) <:+ ((base ++ '.' :: pre).map Char.toLower))) := rfl
  cases hfind : romExtList.find?
      (fun x => decide (('.' :: x.data) <:+ ((base ++ '.' :: pre).map Char.toLower))) with
  | none =>
    exfalso
    have hnone := List.find?_eq_none.mp hfind ext hm
    exact hnone (decide_eq_true hsuf)
  | some e =>
    have hp := List.find?_some hfind
    have hesuf : ('.' :: e.data) <:+ ((base ++ '.' :: pre).map Char.toLower) :=
      of_decide_eq_true hp
    have hemem : e ∈ romExtList := List.mem_of_find?_eq_some hfind
    have hlen : e.data.length = ext.data.length :=
      romExt_suffix_length hemem hm hesuf hsuf
    have he : e.length = e.data.length := rfl
    have harith : (base ++ '.' :: pre).length - (e.length + 1) = base.length := by
      rw [List.length_append, List.length_cons, he, hlen, ← hplen]
      omega
    simp only [stripRomExtCore, hfind0, hfind]
    rw [harith]
    exact List.take_left base ('.' :: pre)

theorem stripRomExtCore_of_none {cs : List Char} (h : romExtMatch cs = none) :
    stripRomExtCore cs = cs := by
  simp [stripRomExtCore, h]

theorem stripChars_eq_self_last {l : List Char} (h : stripChars l = l) :
    ∀ c, l.getLast? = some c → isPyWs c = false := by
  intro c hc
  by_contra hw
  have hw' : isPyWs c = true := by
    revert hw; cases isPyWs c <;> simp
  have h1 : (l.dropWhile isPyWs) <:+ l := List.dropWhile_suffix _
  have h2 : ((l.dropWhile isPyWs).reverse.dropWhile isPyWs) <:+ (l.dropWhile isPyWs).reverse :=
    List.dropWhile_suffix _
  have hlen0 : ((l.dropWhile isPyWs).reverse.dropWhile isPyWs).length = l.length := by
    have := congrArg List.length h
    simpa [stripChars] using this
  have hlen1 : (l.dropWhile isPyWs).length ≤ l.length := h1.sublist.length_le
  have hlen2 : ((l.dropWhile isPyWs).reverse.dropWhile isPyWs).length
      ≤ (l.dropWhile isPyWs).length := by
    simpa using h2.sublist.length_le
  have hA : l.dropWhile isPyWs = l := h1.eq_of_length (by omega)
  have hAlen : (l.dropWhile isPyWs).length = l.length := by rw [hA]
  have hB : (l.dropWhile isPyWs).reverse.dropWhile isPyWs = (l.dropWhile isPyWs).reverse :=
    h2.eq_of_length (by simp only [List.length_reverse]; omega)
  rw [hA] at hB
  have hh : l.reverse.head? = some c := by
    rw [List.head?_reverse]; exact hc
  rcases hrev : l.reverse with _ | ⟨x, xs⟩
  · rw [hrev] at hh; cases hh
  · rw [hrev] at hh hB
    have hx : x = c := by simpa using hh
    rw [hx, List.dropWhile_cons, hw'] at hB
    simp only [if_true] at hB
    have hlen3 : (xs.dropWhile isPyWs).length ≤ xs.length :=
      (List.dropWhile_suffix _).sublist.length_le
    have := congrArg List.length hB
    simp only [List.length_cons] at this
    omega

theorem mk_data (s : String) : String.mk s.data = s := rfl

theorem getLast?_cons_isSome (a : Char) (l : List Char) : ∃ c, (a :: l).getLast? = some c := by
  induction l generalizing a with
  | nil => exact ⟨a, rfl⟩
  | cons b t ih =>
    rcases ih b with ⟨c, hc⟩
    exact ⟨c, by rw [List.getLast?_cons_cons]; exact hc⟩

theorem data_mk (l : List Char) : (String.mk l).data = l := rfl

theorem rom_ext_sub_of_none {s : String} (hnom : romExtMatch s.data = none)
    (hlast : ∀ c, s.data.getLast? = some c → c ≠ '\n') :
    rom_ext_sub s = s := by
  cases hl : s.data.getLast? with
  | none =>
    simp only [rom_ext_sub, hl, stripRomExtCore_of_none hnom, mk_data]
  | some c =>
    have hcne := hlast c hl
    simp only [rom_ext_sub, hl, hcne, if_false, stripRomExtCore_of_none hnom, mk_data]

theorem rom_ext_sub_strips (base pre : List Char) (ext : String)
    (hm : ext ∈ romExtList) (hlow : pre.map Char.toLower = ext.data) :
    rom_ext_sub (String.mk (base ++ '.' :: pre)) = String.mk base := by
  have hplen : pre.length = ext.data.length := by
    rw [← hlow, List.length_map]
  have hnil : ext.data ≠ [] := romExt_ne_nil ext hm
  obtain ⟨p0, ptl, rfl⟩ : ∃ p0 ptl, pre = p0 :: ptl := by
    cases pre with
    | nil => exact absurd (List.length_eq_zero.mp hplen.symm) hnil
    | cons p0 ptl => exact ⟨p0, ptl, rfl⟩
  obtain ⟨c, hc⟩ := getLast?_cons_isSome p0 ptl
  have hcl : (base ++ '.' :: p0 :: ptl).getLast? = some c := by
    rw [List.getLast?_append, List.getLast?_cons_cons, hc]
    rfl
  have hcne : c ≠ '\n' := by
    have hmapLast : ((p0 :: ptl).map Char.toLower).getLast? = some (Char.toLower c) := by
      rw [List.getLast?_map, hc]
      rfl
    rw [hlow] at hmapLast
    intro hcc
    rw [hcc] at hmapLast
    have hnl : Char.toLower '\n' = '\n' := by decide
    rw [hnl] at hmapLast
    exact romExt_last_ne_nl ext hm hmapLast
  simp only [rom_ext_sub, data_mk, hcl, hcne, if_false,
    stripRomExtCore_strips base (p0 :: ptl) ext hm hlow]

/-- C3: `clean_title` never changes an already-trimmed title without a
recognized trailing extension, strips exactly the one recognized trailing
extension when present (leaving any earlier extension alone), and falls
back to the locator-derived title, stripped and trimmed the same way,
when the title trims to nothing. -/
theorem c3_clean_title_strip :
    ∀ (s : String) (u : Option String),
      (pyStripStr s = s → s ≠ "" → romExtMatch s.data = none →
        clean_title (some s) u = some s)
      ∧ (∀ (base pre : List Char) (ext : String), ext ∈ romExtList →
          pre.map Char.toLower = ext.data → s = String.mk (base ++ '.' :: pre) →
          pyStripStr s = s →
          clean_title (some s) u =
            (if pyStripStr (String.mk base) = "" then cleanFromUrl u
             else some (pyStripStr (String.mk base))))
      ∧ (pyStripStr s = "" → clean_title (some s) u = cleanFromUrl u) := by
  intro s u
  refine ⟨?_, ?_, ?_⟩
  · intro h1 h3 h2
    have hlast : ∀ c, s.data.getLast? = some c → c ≠ '\n' := by
      intro c hc hcc
      have hst : stripChars s.data = s.data := by
        have := congrArg String.data h1
        simpa [pyStripStr] using this
      have hws := stripChars_eq_self_last hst c hc
      rw [hcc] at hws
      have htrue : isPyWs '\n' = true := by decide
      rw [htrue] at hws
      cases hws
    have hsub : rom_ext_sub s = s := rom_ext_sub_of_none h2 hlast
    simp [clean_title, h1, hsub, h3]
  · intro base pre ext hm hlow hs hstrip
    subst hs
    have hsub := rom_ext_sub_strips base pre ext hm hlow
    have hne : String.mk (base ++ '.' :: pre) ≠ "" := by
      intro h0
      have hd := congrArg String.data h0
      simp at hd
    by_cases hb : pyStripStr (String.mk base) = "" <;>
      by_cases hu : truthy u = true <;>
        simp [clean_title, cleanFromUrl, hstrip, hsub, hne, hb, hu]
  · intro h
    by_cases hu : truthy u = true <;>
      simp [clean_title, cleanFromUrl, h, hu]

/-- C3 witness: a title carrying two candidate extensions loses only the
final one, case-insensitively. -/
theorem c3_witness : clean_title (some "Game.bin.ZIP") none = some "Game.bin" := by
  have h := (c3_clean_title_strip "Game.bin.ZIP" none).2.1
    "Game.bin".data "ZIP".data "zip" (by decide) (by decide) (by decide) (by decide)
  rw [h]
  decide

/-! ## C4 -/

/-- C4 counterexample: for a locator whose final path segment is empty the
function returns the empty string, not an absent value, contradicting the
claim that the result is absent when the segment is empty. -/
theorem c4_counterexample :
    lastSegmentChars ("https://x/".data) = []
    ∧ derive_title_from_url "https://x/" ≠ none
    ∧ derive_title_from_url "https://x/" = some "" := by
  exact ⟨by decide, by decide, by decide⟩

/-- C4 amended: the percent-decoding round trip and the extension
stripping hold as claimed, an empty url yields an absent title, and an
empty final segment yields the empty string (which every caller treats as
absent) rather than an absent value. -/
theorem c4_derive_title_amended :
    (derive_title_from_url "https://x/y/Mega%20Example%20%28USA%29.zip"
       = some "Mega Example (USA)")
    ∧ derive_title_from_url "" = none
    ∧ (∀ url : String, url ≠ "" → lastSegmentChars url.data = [] →
        derive_title_from_url url = some "")
    ∧ (∀ url : String, url ≠ "" →
        splitextRoot (unquoteChars (lastSegmentChars url.data)) = [] →
        derive_title_from_url url
          = some (String.mk (unquoteChars (lastSegmentChars url.data)))) := by
  refine ⟨by decide, rfl, ?_, ?_⟩
  · intro url h1 h2
    unfold derive_title_from_url
    rw [if_neg h1, h2]
    rfl
  · intro url h1 h2
    unfold derive_title_from_url
    rw [if_neg h1]
    simp only [data_mk, h2]
    rfl

/-- C4 witness for the amended claim. -/
theorem c4_witness : derive_title_from_url "https://x/" = some "" :=
  c4_derive_title_amended.2.2.1 "https://x/" (by decide) (by decide)

/-! ## C5 -/

theorem pySplitComma_no_comma (l : List Char) (h : ',' ∉ l) : pySplitComma l = [l] := by
  induction l with
  | nil => rfl
  | cons c t ih =>
    have hc : c ≠ ',' := fun hcc => h (hcc ▸ List.mem_cons_self _ _)
    have ht : ',' ∉ t := fun hm => h (List.mem_cons_of_mem _ hm)
    simp [pySplitComma, hc, ih ht]

theorem pySplitComma_append (a rest : List Char) (h : ',' ∉ a) :
    pySplitComma (a ++ ',' :: rest) = a :: pySplitComma rest := by
  induction a with
  | nil => simp [pySplitComma]
  | cons c t ih =>
    have hc : c ≠ ',' := fun hcc => h (hcc ▸ List.mem_cons_self _ _)
    have ht : ',' ∉ t := fun hm => h (List.mem_cons_of_mem _ hm)
    simp [pySplitComma, hc, ih ht]

theorem data_eq_nil {s : String} : s.data = [] ↔ s = "" := by
  constructor
  · intro h
    apply String.ext
    rw [h]
  · intro h
    rw [h]

theorem append_ne_empty_left {a : String} (b : String) (ha : a ≠ "") : a ++ b ≠ "" := by
  intro h
  have hd := congrArg String.data h
  rw [String.data_append] at hd
  rcases List.append_eq_nil.mp (by simpa using hd) with ⟨h1, -⟩
  exact ha (data_eq_nil.mp h1)

/-- C5 counterexample: with the PlayStation BIOS environment variable
entirely omitted, the generated feed still carries a `psx_bios` key (the
built-in default URL list), contradicting the claim that omission yields
no key at all. -/
theorem c5_counterexample :
    envNone "PSX_BIOS_URLS" = none
    ∧ generate_feed (build_config envNone "T") (some sysListW) (some mapListW) gfW
        = Except.ok feedD
    ∧ feedD.psx_bios ≠ none := by
  refine ⟨rfl, ?_, by decide⟩
  have h : (generate_feed (build_config envNone "T") (some sysListW) (some mapListW)
      gfW).toOption = some feedD := by decide
  cases hgen : generate_feed (build_config envNone "T") (some sysListW) (some mapListW) gfW with
  | ok f =>
    rw [hgen] at h
    simp only [Except.toOption] at h
    injection h with h
    rw [h]
  | error e =>
    rw [hgen] at h
    simp only [Except.toOption] at h
    cases h

/-- C5 amended: a configured comma-separated 3-URL list yields the ordered
3-element `psx_bios` value; a value configured empty parses to nothing and
the key is then absent from the feed; but an omitted variable falls back
to the built-in default 3-URL list, so the key is present with the
defaults. -/
theorem c5_bios_props_amended :
    (∀ (env : String → Option String) (now u1 u2 u3 : String),
      env "PSX_BIOS_URLS" = some (u1 ++ "," ++ u2 ++ "," ++ u3) →
      ',' ∉ u1.data → ',' ∉ u2.data → ',' ∉ u3.data →
      pyStripStr u1 = u1 → pyStripStr u2 = u2 → pyStripStr u3 = u3 →
      u1 ≠ "" → u2 ≠ "" → u3 ≠ "" →
      (build_config env now).psx_bios_urls = some [u1, u2, u3])
    ∧ (∀ (env : String → Option String) (now : String),
        env "PSX_BIOS_URLS" = some "" → (build_config env now).psx_bios_urls = none)
    ∧ (∀ (env : String → Option String) (now : String),
        env "PSX_BIOS_URLS" = none →
        (build_config env now).psx_bios_urls =
          some ["https://psx.arthus.net/roms/bios/scph5500.bin",
                "https://psx.arthus.net/roms/bios/scph5501.bin",
                "https://psx.arthus.net/roms/bios/scph5502.bin"])
    ∧ (∀ (cfg : ConfigM) (systems : List SystemR) (mapping : List (String × String))
        (gamesFor : String → Option (List RawEntry)) (f : Feed),
        generate_feed cfg (some systems) (some mapping) gamesFor = Except.ok f →
        f.psx_bios = (if truthyList cfg.psx_bios_urls then cfg.psx_bios_urls else none)) := by
  refine ⟨?_, ?_, ?_, ?_⟩
  · intro env now u1 u2 u3 henv hc1 hc2 hc3 hs1 hs2 hs3 hn1 hn2 hn3
    have hne : (u1 ++ "," ++ u2 ++ "," ++ u3) ≠ "" :=
      append_ne_empty_left u3 (append_ne_empty_left ","
        (append_ne_empty_left u2 (append_ne_empty_left "," hn1)))
    have hcomma : ("," : String).data = [','] := rfl
    have hdata : (u1 ++ "," ++ u2 ++ "," ++ u3).data
        = u1.data ++ ',' :: (u2.data ++ ',' :: u3.data) := by
      simp [String.data_append, hcomma]
    have hsplit : pySplitComma ((u1 ++ "," ++ u2 ++ "," ++ u3).data)
        = [u1.data, u2.data, u3.data] := by
      rw [hdata, pySplitComma_append _ _ hc1, pySplitComma_append _ _ hc2,
          pySplitComma_no_comma _ hc3]
    simp only [build_config, envGetD, henv, Option.getD_some]
    rw [if_pos hne, hsplit]
    simp [mk_data, hs1, hs2, hs3, hn1, hn2, hn3]
  · intro env now henv
    simp [build_config, envGetD, henv]
  · intro env now henv
    simp only [build_config, envGetD, henv, Option.getD_none]
    rfl
  · intro cfg systems mapping gamesFor f h
    exact (generate_feed_ok_elim h).2.2

/-- C5 witness for the amended claim. -/
theorem c5_witness :
    (build_config envPsx "T").psx_bios_urls
      = some ["https://a/1.bin", "https://a/2.bin", "https://a/3.bin"] :=
  c5_bios_props_amended.1 envPsx "T" "https://a/1.bin" "https://a/2.bin" "https://a/3.bin"
    (by decide) (by decide) (by decide) (by decide) (by decide) (by decide) (by decide)
    (by decide) (by decide) (by decide)

/-- C6 witness: an empty systems list yields zero categories, and the run
fails with result 1. -/
theorem c6_witness :
    generate_feed (build_config envNone "T") (some []) (some []) gfW = Except.error 1 :=
  (c6_zero_categories_fatal (build_config envNone "T") [] [] gfW).1 rfl

/-! ## C9 -/

theorem build_items_type {games : List RawEntry} {st : String} {rp : Option String}
    {it : Item} (h : it ∈ build_items games st rp) : it.type = st := by
  rcases build_items_mem h with ⟨g, -, -, rfl⟩
  rfl

theorem build_categories_types (cfg : ConfigM) (mapping : List (String × String))
    (gf : String → Option (List RawEntry)) :
    ∀ (systems : List SystemR), ∀ cat ∈ build_categories cfg systems mapping gf,
      ∀ it ∈ cat.items, it.type ≠ "" := by
  intro systems
  induction systems with
  | nil => intro cat hcat; cases hcat
  | cons sys rest ih =>
    intro cat hcat it hit
    simp only [build_categories] at hcat
    by_cases hst : truthy (map_system_name sys mapping) = true
    · rw [if_pos hst] at hcat
      rcases truthy_some hst with ⟨v, hv, hvne⟩
      cases hgf : gf (pyOrStr (pyOr sys.platform_name sys.name) "Unknown") with
      | none =>
        simp only [hgf] at hcat
        exact ih cat hcat it hit
      | some games =>
        simp only [hgf] at hcat
        by_cases hie : (build_items games ((map_system_name sys mapping).getD "")
            cfg.rom_pref_url).isEmpty = true
        · rw [if_pos hie] at hcat
          exact ih cat hcat it hit
        · rw [if_neg hie] at hcat
          rcases List.mem_cons.mp hcat with rfl | hcat2
          · have hty := build_items_type hit
            rw [hty, hv]
            simpa using hvne
          · exact ih cat hcat2 it hit
    · rw [if_neg hst] at hcat
      exact ih cat hcat it hit

/-- C9: every item of an emitted feed carries a non-empty platform type:
the assembler skips systems whose resolved type is absent or empty, and
the exact-name and folder rules of the resolver treat an empty mapping
value as absent, falling through to the later rules. -/
theorem c9_item_type_nonempty :
    (∀ (cfg : ConfigM) (systems : List SystemR) (mapping : List (String × String))
        (gamesFor : String → Option (List RawEntry)) (f : Feed),
      generate_feed cfg (some systems) (some mapping) gamesFor = Except.ok f →
      ∀ cat ∈ f.categories, ∀ it ∈ cat.items, it.type ≠ "")
    ∧ (∀ (sys : SystemR) (m : List (String × String)),
        truthy (pyOr sys.name sys.platform_name) = true →
        mapGet m ((pyOr sys.name sys.platform_name).getD "") = some "" →
        map_system_name sys m = map_system_name_later sys m)
    ∧ (∀ (sys : SystemR) (m : List (String × String)),
        truthy (pyOr sys.name sys.platform_name) = true →
        truthy (mapGet m ((pyOr sys.name sys.platform_name).getD "")) = false →
        truthy sys.folder = true →
        mapGet m (sys.folder.getD "") = some "" →
        truthy (mapGet m (asciiLower (sys.folder.getD ""))) = false →
        map_system_name sys m
          = ci_scan m ((pyOr sys.name sys.platform_name).getD "")) := by
  refine ⟨?_, ?_, ?_⟩
  · intro cfg systems mapping gamesFor f h cat hcat it hit
    rcases generate_feed_ok_elim h with ⟨hcats, -, -⟩
    rw [hcats] at hcat
    exact build_categories_types cfg mapping gamesFor systems cat hcat it hit
  · intro sys m hn hm
    have hge : truthy (some "") = false := rfl
    unfold map_system_name map_system_name_later
    simp [hn, hm, hge]
  · intro sys m hn h1 hf hfol h3
    have hge : truthy (some "") = false := rfl
    unfold map_system_name
    have hp : pyOr (mapGet m (sys.folder.getD ""))
        (mapGet m (asciiLower (sys.folder.getD ""))) =
        mapGet m (asciiLower (sys.folder.getD "")) := by
      simp [pyOr, hfol, hge]
    simp [hn, h1, hf, hp, h3]

/-- C9 witness: a concrete emitted item has a non-empty type, and an
exact-name mapping entry with an empty value falls through to the later
rules. -/
theorem c9_witness :
    itemMario.type ≠ ""
    ∧ map_system_name sysW9 mapW9 = map_system_name_later sysW9 mapW9
    ∧ map_system_name sysW9c mapW9c = ci_scan mapW9c "N" := by
  refine ⟨?_, ?_, ?_⟩
  · exact c9_item_type_nonempty.1 (build_config envNone "T") sysListW mapListW gfW feedD
      (by
        have h : (generate_feed (build_config envNone "T") (some sysListW) (some mapListW)
            gfW).toOption = some feedD := by decide
        cases hgen : generate_feed (build_config envNone "T") (some sysListW)
            (some mapListW) gfW with
        | ok f =>
          rw [hgen] at h
          simp only [Except.toOption] at h
          injection h with h
          rw [h]
        | error e =>
          rw [hgen] at h
          simp only [Except.toOption] at h
          cases h)
      catMario (by decide) itemMario (by decide)
  · exact c9_item_type_nonempty.2.1 sysW9 mapW9 (by decide) (by decide)
  · exact c9_item_type_nonempty.2.2 sysW9c mapW9c (by decide) (by decide) (by decide)
      (by decide) (by decide)

/-! ## C10 -/

theorem pyOr_assoc (a b c : Option String) : pyOr (pyOr a b) c = pyOr a (pyOr b c) := by
  by_cases ta : truthy a = true <;> by_cases tb : truthy b = true <;> simp [pyOr, ta, tb]

theorem ite_truthy_ne_some_empty (o : Option String) :
    (if truthy o then o else none) ≠ some "" := by
  by_cases h : truthy o = true
  · rcases truthy_some h with ⟨v, rfl, hv⟩
    simp [h, hv]
  · simp [h]

/-- C10 counterexample: a record whose first present artwork field is the
empty string still gets a thumbnail key (from a later candidate field), so
the attachment is not governed by the first merely-present field. -/
theorem c10_counterexample :
    (build_items [RawEntry.dict gX] "nes" none).map Item.thumbnail = [some "x"]
    ∧ first_present gX.img gX.thumbnail gX.image = some "" := by
  exact ⟨by decide, by decide⟩

/-- C10 amended: an item carries a thumbnail (respectively background) key
exactly when the first present-and-non-empty candidate of img, thumbnail,
image (respectively background, banner, screenshot) exists, and that value
is attached; a field that is present but empty is skipped, and no item
ever carries an empty artwork value. -/
theorem c10_artwork_amended :
    ∀ (raw : RawEntry) (st : String) (rp : Option String),
      ∀ it ∈ build_items [raw] st rp,
        it.thumbnail = first_nonempty [(normalize_game_entry raw).img,
          (normalize_game_entry raw).thumbnail, (normalize_game_entry raw).image]
        ∧ it.background = first_nonempty [(normalize_game_entry raw).background,
          (normalize_game_entry raw).banner, (normalize_game_entry raw).screenshot]
        ∧ it.thumbnail ≠ some "" ∧ it.background ≠ some "" := by
  intro raw st rp it hit
  rcases build_items_mem hit with ⟨g, hg, -, rfl⟩
  rcases List.mem_singleton.mp hg with rfl
  refine ⟨?_, ?_, ?_, ?_⟩
  · simp only [item_of, extract_thumbnail, first_nonempty3, pyOr_assoc]
  · simp only [item_of, extract_background, first_nonempty3, pyOr_assoc]
  · exact ite_truthy_ne_some_empty _
  · exact ite_truthy_ne_some_empty _

/-- C10 witness for the amended claim. -/
theorem c10_witness : itemX.thumbnail ≠ some "" :=
  (c10_artwork_amended (RawEntry.dict gX) "nes" none itemX (by decide)).2.2.1
